import Mathlib

/-!
Verification of the tsflex feature-extraction engine specification against a
shallow embedding of the repository code, mainly
`tsflex/features/feature_collection.py` and `time_series/features/logger.py`.

The embedding models:
* the registry of `FeatureDescriptor`s keyed by collection key (series names,
  window, stride), kept as an insertion-ordered association list, mirroring a
  Python dict;
* the `add` machinery and its `TypeError` behaviour;
* the flat-task index resolution (`np.cumsum` + `np.searchsorted` with the
  `right` side, followed by a possibly-negative Python list index);
* the `calculate` pipeline: series validation, required-series filtering,
  sequential dispatch (`mapM` over the flat index range) and parallel dispatch
  (`pool.uimap`, which yields results in worker completion order, modelled by
  an arbitrary permutation of the flat index range);
* the execution-log message format and the log parser of
  `time_series/features/logger.py`.

Machine floats are modelled by rationals; timestamps by integers.
-/

namespace Tsflex

/-- Embedding of `FeatureDescriptor`: the series key(s) consumed, the window
and stride (rationals, standing for seconds or sample counts), and an opaque
identifier for the wrapped user function. -/
structure FeatureDescriptor where
  series_name : List String
  window : ℚ
  stride : ℚ
  funcId : ℕ
  deriving DecidableEq

/-- Collection key of a descriptor: (series key tuple, window, stride),
mirroring `FeatureCollection._get_collection_key`. -/
abbrev CollKey := List String × ℚ × ℚ

/-- Embedding of the `_feature_desc_dict` of a `FeatureCollection`: an
insertion-ordered association list from collection keys to descriptor lists,
mirroring a Python dict. -/
abbrev Registry := List (CollKey × List FeatureDescriptor)

/-- Mirrors `FeatureCollection._get_collection_key`. -/
def get_collection_key (f : FeatureDescriptor) : CollKey :=
  (f.series_name, f.window, f.stride)

/-- Mirrors `FeatureCollection._add_feature`: append to the list of an
existing key, or insert a fresh singleton entry at the end. -/
def add_feature (reg : Registry) (f : FeatureDescriptor) : Registry :=
  if (reg.map Prod.fst).contains (get_collection_key f) then
    reg.map (fun kv =>
      if kv.1 = get_collection_key f then (kv.1, kv.2 ++ [f]) else kv)
  else
    reg ++ [(get_collection_key f, [f])]

/-- Adding a list of plain descriptors one by one; this is what the recursive
`self.add` calls on `feature.feature_descriptions` and on a flattened
collection reduce to. -/
def add_fds (reg : Registry) (fs : List FeatureDescriptor) : Registry :=
  fs.foldl add_feature reg

/-- One item of the argument list accepted by `FeatureCollection.add`: a
descriptor, a `MultipleFeatureDescriptors` (carrying its expanded descriptor
list), another collection (carrying its registry), or an unsupported value. -/
inductive AddArg where
  | fd (f : FeatureDescriptor)
  | mfd (fs : List FeatureDescriptor)
  | fc (r : Registry)
  | other
  deriving DecidableEq

/-- Embedding of the loop body of `FeatureCollection.add`: process the items
left to right, mutating the registry as each supported item is handled, and
stop with a `TypeError` (the `true` flag) at the first unsupported item. -/
def addRun (reg : Registry) : List AddArg → Registry × Bool
  | [] => (reg, false)
  | a :: rest =>
    match a with
    | .mfd fs => addRun (add_fds reg fs) rest
    | .fd f => addRun (add_feature reg f) rest
    | .fc r => addRun (add_fds reg ((r.map Prod.snd).flatten)) rest
    | .other => (reg, true)

/-- Effect of one supported `add` item on the registry. -/
def addStep (reg : Registry) : AddArg → Registry
  | .fd f => add_feature reg f
  | .mfd fs => add_fds reg fs
  | .fc r => add_fds reg ((r.map Prod.snd).flatten)
  | .other => reg

/-- Whether an `add` item is unsupported. -/
def AddArg.isOther : AddArg → Bool
  | .other => true
  | _ => false

/-- Mirrors `FeatureCollection.get_required_series` up to the order produced
by the Python `set`; only membership is ever used. -/
def get_required_series (reg : Registry) : List String :=
  ((reg.map (fun kv => kv.1.1)).flatten).dedup

/-- Inclusive prefix sums, mirroring `np.cumsum`. -/
def cumsum : List ℕ → List ℕ
  | [] => []
  | a :: rest => a :: (cumsum rest).map (a + ·)

/-- Mirrors `keys_wins_strides = list(self._feature_desc_dict.keys())`. -/
def keys_wins_strides (reg : Registry) : List CollKey :=
  reg.map Prod.fst

/-- Mirrors `lengths = np.cumsum([len(dict[k]) for k in keys_wins_strides])`. -/
def lengths (reg : Registry) : List ℕ :=
  cumsum (reg.map (fun kv => kv.2.length))

/-- Mirrors `np.searchsorted(a, v, side=right)` on a sorted array: the number
of entries that are at most `v`. -/
def searchsorted_right (a : List ℕ) (v : ℕ) : ℕ :=
  a.countP (fun x => decide (x ≤ v))

/-- Python list indexing, including the negative-index wrap-around used by
`dict[key][idx - lengths[key_idx]]`; `none` is an `IndexError`. -/
def pyGet {α : Type} (l : List α) (i : ℤ) : Option α :=
  if 0 ≤ i then l.get? i.toNat
  else if (-i).toNat ≤ l.length then l.get? (l.length - (-i).toNat)
  else none

/-- Resolution component of `get_stroll_function` (feature_collection.py lines
154-165): map a flat task index to the collection key found by the
right-biased search over the inclusive prefix sums, and to the descriptor
found by the Python list index `idx - lengths[key_idx]` (a negative number,
wrapping around from the end of the list). -/
def resolve_task (reg : Registry) (idx : ℕ) : Option (CollKey × FeatureDescriptor) := do
  let ls := lengths reg
  let key_idx := searchsorted_right ls idx
  let key ← (keys_wins_strides reg).get? key_idx
  let descs ← List.lookup key reg
  let lki ← ls.get? key_idx
  let feature ← pyGet descs ((idx : ℤ) - (lki : ℤ))
  return (key, feature)

/-- Mirrors `FeatureCollection._get_stroll_feat_length`. -/
def get_stroll_feat_length (reg : Registry) : ℕ :=
  (reg.map (fun kv => kv.2.length)).sum

/-- The flattened task list the spec talks about: the concatenation, in
collection-key iteration order, of the per-key descriptor lists, each
descriptor paired with its key. -/
def flat_tasks (reg : Registry) : List (CollKey × FeatureDescriptor) :=
  (reg.map (fun kv => kv.2.map (fun d => (kv.1, d)))).flatten

/-- Group index and in-group offset actually reached by the resolution at a
flat index: the searchsorted group together with the list position the Python
negative index lands on. -/
def group_offset (reg : Registry) (idx : ℕ) : Option (ℕ × ℕ) := do
  let ls := lengths reg
  let key_idx := searchsorted_right ls idx
  let key ← (keys_wins_strides reg).get? key_idx
  let descs ← List.lookup key reg
  let lki ← ls.get? key_idx
  let i : ℤ := (idx : ℤ) - (lki : ℤ)
  if 0 ≤ i then
    if i.toNat < descs.length then return (key_idx, i.toNat) else none
  else
    if (-i).toNat ≤ descs.length then return (key_idx, descs.length - (-i).toNat)
    else none

/-- Total descriptor count of the first `g` registry entries; the flat index
of the first task of group `g`. -/
def prefix_len (reg : Registry) (g : ℕ) : ℕ :=
  ((reg.take g).map (fun kv => kv.2.length)).sum

/-- Embedding of a pandas Series as `calculate` sees it: a name, a flag for
whether the index is a `pd.DatetimeIndex`, the index timestamps and the
values. -/
structure Series where
  name : String
  hasDatetimeIndex : Bool
  index : List ℤ
  values : List ℚ
  deriving DecidableEq

/-- Mirrors `pd.Index.is_monotonic_increasing` (non-strict). -/
def is_monotonic_increasing : List ℤ → Bool
  | [] => true
  | [_] => true
  | a :: b :: rest => decide (a ≤ b) && is_monotonic_increasing (b :: rest)

/-- The two assertions of `calculate` on each input series (feature_collection.py
lines 257-258). -/
def series_valid (s : Series) : Bool :=
  s.hasDatetimeIndex && is_monotonic_increasing s.index

/-- Decidable equality for `Except`, used to evaluate the embedded `calculate`
on concrete inputs. -/
instance {ε α : Type} [DecidableEq ε] [DecidableEq α] : DecidableEq (Except ε α) :=
  fun a b =>
  match a, b with
  | .error e1, .error e2 =>
    if h : e1 = e2 then isTrue (by rw [h]) else isFalse (fun hc => h (Except.error.inj hc))
  | .ok v1, .ok v2 =>
    if h : v1 = v2 then isTrue (by rw [h]) else isFalse (fun hc => h (Except.ok.inj hc))
  | .error _, .ok _ => isFalse (fun hc => Except.noConfusion hc)
  | .ok _, .error _ => isFalse (fun hc => Except.noConfusion hc)

/-- Errors surfaced by the embedded `calculate`: a failed `assert` on an input
series, a missing key in `series_dict`, or an out-of-range list index. -/
inductive CalcError where
  | assertionError
  | keyError
  | indexError
  deriving DecidableEq

/-- Embedding of the series-dict construction loop of `calculate` (lines
254-261): every series is asserted to have a datetime, monotonically
increasing index, and only afterwards filtered on membership in the required
series. -/
def build_series_dict (req : List String) (acc : List (String × Series)) :
    List Series → Except CalcError (List (String × Series))
  | [] => Except.ok acc
  | s :: rest =>
    if series_valid s then
      if req.contains s.name then build_series_dict req (acc ++ [(s.name, s)]) rest
      else build_series_dict req acc rest
    else Except.error CalcError.assertionError

/-- Embedding of `[series_dict[k] for k in key]`, evaluated left to right: a
missing key raises a `KeyError` at the first absent name. -/
def lookup_series (sd : List (String × Series)) : List String → Except CalcError (List Series)
  | [] => Except.ok []
  | n :: rest =>
    match List.lookup n sd with
    | some s => (lookup_series sd rest).map (fun l => s :: l)
    | none => Except.error CalcError.keyError

/-- Embedding of a `StridedRolling` instance as built at feature_collection.py
lines 157-163: the constructor arguments. Segmentation itself lives outside
src and is not needed for these claims. -/
structure StridedRolling where
  data : List Series
  window : ℚ
  stride : ℚ
  window_idx : String
  approve_sparsity : Bool
  deriving DecidableEq

/-- Embedding of the value computed by `stroll.apply_func(function)`: the
freest model, a result determined exactly by the strided rolling it was
applied on and by the applied function. -/
structure TaskResult where
  stroll : StridedRolling
  funcId : ℕ
  deriving DecidableEq

/-- Mirrors `StridedRolling.apply_func` at the interface level. -/
def apply_func (st : StridedRolling) (fid : ℕ) : TaskResult :=
  { stroll := st, funcId := fid }

/-- Embedding of the closure `get_stroll_function` (lines 154-165), including
the `StridedRolling` construction from the shared series dict: resolve the
collection key, fetch the required series (`KeyError` when absent), build the
strided rolling, then resolve the descriptor and hand back its function. -/
def get_stroll_function (reg : Registry) (sd : List (String × Series))
    (window_idx : String) (approve_sparsity : Bool) (idx : ℕ) :
    Except CalcError (StridedRolling × ℕ) := do
  let ls := lengths reg
  let key_idx := searchsorted_right ls idx
  match (keys_wins_strides reg).get? key_idx with
  | none => Except.error CalcError.indexError
  | some key => do
    let data ← lookup_series sd key.1
    let stroll : StridedRolling :=
      { data := data, window := key.2.1, stride := key.2.2,
        window_idx := window_idx, approve_sparsity := approve_sparsity }
    match List.lookup key reg, ls.get? key_idx with
    | some descs, some lki =>
      match pyGet descs ((idx : ℤ) - (lki : ℤ)) with
      | some feature => Except.ok (stroll, feature.funcId)
      | none => Except.error CalcError.indexError
    | _, _ => Except.error CalcError.indexError

/-- Mirrors `FeatureCollection._executor`. -/
def executor (reg : Registry) (sd : List (String × Series))
    (window_idx : String) (approve_sparsity : Bool) (idx : ℕ) :
    Except CalcError TaskResult := do
  let sf ← get_stroll_function reg sd window_idx approve_sparsity idx
  Except.ok (apply_func sf.1 sf.2)

/-- Construction at task index `idx` of the `StridedRolling` built inside
`get_stroll_function` (line 157). -/
def build_stroll (reg : Registry) (sd : List (String × Series))
    (window_idx : String) (approve_sparsity : Bool) (idx : ℕ) :
    Except CalcError StridedRolling :=
  (get_stroll_function reg sd window_idx approve_sparsity idx).map Prod.fst

/-- One `StridedRolling` is constructed per invocation of
`get_stroll_function`, and a sequential `calculate` invokes it once per flat
task index; this is the resulting trace of construction events. -/
def stroll_construction_trace (reg : Registry) (sd : List (String × Series))
    (window_idx : String) (approve_sparsity : Bool) :
    List (Except CalcError StridedRolling) :=
  (List.range (get_stroll_feat_length reg)).map
    (build_stroll reg sd window_idx approve_sparsity)

/-- Embedding of the sequential branch of `calculate` (`n_jobs in [0, 1]`):
validate and filter the input series, then execute the flat task range in
order; the first raised exception aborts the call. -/
def calculate_seq (reg : Registry) (data : List Series)
    (window_idx : String) (approve_sparsity : Bool) :
    Except CalcError (List TaskResult) := do
  let sd ← build_series_dict (get_required_series reg) [] data
  (List.range (get_stroll_feat_length reg)).mapM
    (executor reg sd window_idx approve_sparsity)

/-- Embedding of the parallel branch of `calculate`: `pool.uimap` yields the
task results in worker completion order, modelled by an arbitrary permutation
`completion` of the flat index range, chosen by the scheduler. -/
def calculate_par (reg : Registry) (data : List Series)
    (window_idx : String) (approve_sparsity : Bool) (completion : List ℕ) :
    Except CalcError (List TaskResult) := do
  let sd ← build_series_dict (get_required_series reg) [] data
  completion.mapM (executor reg sd window_idx approve_sparsity)

/-- Modelled from the spec: the window-count formula asserted by the claim for
a single-series descriptor, `floor((N*P - W)/S) + 1` when `N*P >= W` and `0`
otherwise (the `StridedRolling` implementation is not part of src). -/
def spec_window_count (N : ℕ) (P W S : ℚ) : ℤ :=
  if W ≤ (N : ℚ) * P then ⌊((N : ℚ) * P - W) / S⌋ + 1 else 0

/-- Translation of the row-count assertion of
`test_single_series_feature_collection` (test file lines 39-42):
`(int(len(dummy_data) / (1 / freq)) - window_s) // stride_s`, where `freq` is
the sample period in seconds. Python `int` truncates (the argument is
nonnegative, so it floors) and `//` on floats is floor division. -/
def test_expected_len (N : ℕ) (freq W S : ℚ) : ℤ :=
  ⌊(((⌊(N : ℚ) / (1 / freq)⌋ : ℤ) : ℚ) - W) / S⌋

/-- Modelled from the spec: the output index of a Segmenter in the default
`end` mode, `n` window end timestamps starting at `t0 + W` and advancing by
the stride `S`. -/
def window_end_index (t0 W S : ℚ) (n : ℕ) : List ℚ :=
  (List.range n).map (fun i : ℕ => t0 + W + (i : ℚ) * S)

/-- Modelled from the spec: the single-column table produced by one task, one
(timestamp, value) row per window; by construction every row of a per-task
table carries a value, so a list-form result has no missing cells. -/
def task_table (t0 W S : ℚ) (n : ℕ) (f : ℚ → ℚ) : List (ℚ × ℚ) :=
  (window_end_index t0 W S n).map (fun t => (t, f t))

/-- Index of the outer merge of two tables (`pd.concat(axis=1, join=outer)`):
the union of the two timestamp indexes. -/
def union_index (t1 t2 : List (ℚ × ℚ)) : List ℚ :=
  (t1.map Prod.fst ++ t2.map Prod.fst).dedup

/-- Cell of a merged table in the column coming from table `tbl` at timestamp
`t`: `none` models the NaN that the outer merge inserts for rows where `tbl`
has no result. -/
def merged_cell (tbl : List (ℚ × ℚ)) (t : ℚ) : Option ℚ :=
  List.lookup t tbl

/-! Embedding of `time_series/features/logger.py`. Strings are handled as
character lists. The scan of `re.findall` with the pattern of one lazy
bracketed group is modelled by a two-state scanner: outside brackets, skip
until an opening bracket; inside, capture until the first closing bracket
(the model assumes log fields contain no newline, which the hypotheses of the
theorems enforce, since the regex dot does not cross newlines). -/

mutual

/-- Scanner state outside a bracketed group. -/
def bgOut : List Char → List (List Char)
  | [] => []
  | c :: rest => if c = '[' then bgIn rest [] else bgOut rest
termination_by l => l.length

/-- Scanner state inside a bracketed group, accumulating the group content. -/
def bgIn : List Char → List Char → List (List Char)
  | [], _ => []
  | c :: rest, acc => if c = ']' then acc :: bgOut rest else bgIn rest (acc ++ [c])
termination_by l _ => l.length

end

/-- Mirrors the Python `str.split` with a one-character separator. -/
def pySplitChar (c : Char) : List Char → List Char → List (List Char)
  | [], acc => [acc]
  | x :: xs, acc =>
    if x = c then acc :: pySplitChar c xs []
    else pySplitChar c xs (acc ++ [x])

/-- Value of a decimal digit character. -/
def digitVal (ch : Char) : Option ℕ :=
  if '0' ≤ ch ∧ ch ≤ '9' then some (ch.toNat - Char.toNat '0') else none

/-- Accumulator loop of decimal parsing. -/
def pyIntAux : List Char → ℕ → Option ℕ
  | [], acc => some acc
  | ch :: rest, acc =>
    match digitVal ch with
    | some d => pyIntAux rest (10 * acc + d)
    | none => none

/-- Mirrors the Python `int` applied to a plain digit string. -/
def pyInt (cs : List Char) : Option ℕ :=
  if cs.isEmpty then none else pyIntAux cs 0

/-- Mirrors the Python `float` applied to a plain decimal string; the decimal
value is kept exactly as a rational. -/
def pyFloat (cs : List Char) : Option ℚ :=
  match pySplitChar '.' cs [] with
  | [w] => (pyInt w).map (fun n => (n : ℚ))
  | [w, f] =>
    if w.isEmpty && f.isEmpty then none
    else if (w ++ f).all (fun ch => (digitVal ch).isSome) then
      match pyIntAux (w ++ f) 0 with
      | some n => some ((n : ℚ) / (10 : ℚ) ^ f.length)
      | none => none
    else none
  | _ => none

/-- Mirrors the Python `str.strip` with a one-character argument. -/
def stripChar (c : Char) (cs : List Char) : List Char :=
  ((cs.dropWhile (fun x => x = c)).reverse.dropWhile (fun x => x = c)).reverse

/-- Mirrors the Python `str.rstrip(chars)`: drop trailing characters belonging
to the given set. -/
def rstripSet (set : List Char) (cs : List Char) : List Char :=
  (cs.reverse.dropWhile (fun x => set.contains x)).reverse

/-- Mirrors the Python `str.strip()` with no argument. -/
def py_strip (cs : List Char) : List Char :=
  ((cs.dropWhile Char.isWhitespace).reverse.dropWhile Char.isWhitespace).reverse

/-- Embedding of `_parse_message` (logger.py lines 25-34): find the lazy
bracketed groups, assert there are exactly 4, and extract the function name,
the quote-stripped key, the window and stride as integers, and the duration
with the trailing units stripped; `none` stands for a raised exception. -/
def parse_message (msg : String) : Option (String × String × ℕ × ℕ × ℚ) := do
  let ms := bgOut msg.toList
  if ms.length = 4 then do
    let func ← ms.get? 0
    let keyRaw ← ms.get? 1
    let key := stripChar (Char.ofNat 39) keyRaw
    let ws ← ms.get? 2
    let parts := pySplitChar ',' ws []
    let wcs ← parts.get? 0
    let scs ← parts.get? 1
    let w ← pyInt wcs
    let s ← pyInt scs
    let dcs ← ms.get? 3
    let d ← pyFloat (rstripSet " seconds".toList dcs)
    return (String.mk func, String.mk key, w, s, d)
  else none

/-- Mirrors the Python `str.split(" - ")`: scan left to right, cutting at each
non-overlapping occurrence of the three-character separator. -/
def split_sep : List Char → List Char → List (List Char)
  | [], acc => [acc]
  | [c], acc => [acc ++ [c]]
  | [c1, c2], acc => [acc ++ [c1, c2]]
  | c1 :: c2 :: c3 :: rest, acc =>
    if c1 = ' ' ∧ c2 = '-' ∧ c3 = ' ' then acc :: split_sep rest []
    else split_sep (c2 :: c3 :: rest) (acc ++ [c1])

/-- Whether the three-character separator occurs in the list. -/
def has_sep : List Char → Bool
  | [] => false
  | [_] => false
  | [_, _] => false
  | c1 :: c2 :: c3 :: rest =>
    decide (c1 = ' ' ∧ c2 = '-' ∧ c3 = ' ') || has_sep (c2 :: c3 :: rest)

/-- Embedding of the per-line work of `parse_logging_execution_to_df` (logger.py
lines 57-68): split the line on the separator, keep the first four stripped
components, parse the fourth as the message, and return the kept columns
(log time, function, key, window, stride, duration). -/
def parse_log_line (line : String) :
    Option (String × String × String × ℕ × ℕ × ℚ) := do
  let parts := split_sep line.toList []
  let ts ← parts.get? 0
  let msg ← parts.get? 3
  let r ← parse_message (String.mk (py_strip msg))
  return (String.mk (py_strip ts), r.1, r.2.1, r.2.2.1, r.2.2.2.1, r.2.2.2.2)

/-- Modelled from the spec: the bracketed message body emitted for one
completed task, with the exact structure
`[<function-name>][<series-key>][<window>,<stride>][<duration> seconds]`
(the emitting call sits in `StridedRolling.apply_func`, which is not part of
src). -/
def mk_log_message (func key wstr sstr dur : List Char) : List Char :=
  [ '[' ] ++ func ++ [ ']', '[' ] ++ key ++ [ ']', '[' ] ++ wstr ++ [ ',' ] ++
    sstr ++ [ ']', '[' ] ++ dur ++ " seconds]".toList

/-- Modelled from the spec: a full execution-log line,
`<timestamp> - <logger-name> - <level> - <message>`. -/
def mk_log_line (ts nm lv msg : List Char) : List Char :=
  ts ++ " - ".toList ++ nm ++ " - ".toList ++ lv ++ " - ".toList ++ msg

/-! Concrete fixtures used by counterexamples and witnesses. -/

/-- A sum-like descriptor on the EDA series. -/
def dEx0 : FeatureDescriptor := ⟨[ "EDA" ], 5, 2, 0⟩

/-- A second descriptor sharing the collection key of `dEx0`. -/
def dEx1 : FeatureDescriptor := ⟨[ "EDA" ], 5, 2, 1⟩

/-- A descriptor on the TMP series with its own collection key. -/
def dTmp : FeatureDescriptor := ⟨[ "TMP" ], 3, 1, 2⟩

/-- A two-key registry: the EDA key holds two descriptors, the TMP key one. -/
def regEx : Registry := [(([ "EDA" ], 5, 2), [dEx0, dEx1]), (([ "TMP" ], 3, 1), [dTmp])]

/-- A registry with a single key holding two descriptors. -/
def regOneKey : Registry := [(([ "EDA" ], 5, 2), [dEx0, dEx1])]

/-- A well-formed EDA series. -/
def sEDA : Series := ⟨"EDA", true, [0, 1, 2], [1, 2, 3]⟩

/-- A well-formed TMP series. -/
def sTMP : Series := ⟨"TMP", true, [0, 1, 2], [4, 5, 6]⟩

/-- A series that is not required by `regEx` and has a non-monotone index. -/
def sBadZ : Series := ⟨"ZZZ", true, [2, 1], [1, 2]⟩

/-! Claim C5: the TypeError behaviour of `add`. -/

/-- C5 counterexample: calling `add` on a list holding a valid descriptor
followed by an unsupported item raises the TypeError, yet the registry is not
left unchanged — the descriptor processed before the offending item has
already been inserted. -/
theorem c5_counterexample :
    (addRun [] [AddArg.fd dEx0, AddArg.other]).2 = true ∧
    (addRun [] [AddArg.fd dEx0, AddArg.other]).1 =
      [(([ "EDA" ], 5, 2), [dEx0])] := by
  decide

/-- C5 (amended): `add` raises a TypeError exactly when some item of its
argument is neither a descriptor, a descriptor set, nor a collection; the
registry then reflects exactly the supported items preceding the first
offending one, so mutation from items processed before the failure is kept,
not rolled back. -/
theorem c5_add_typeerror (reg : Registry) (args : List AddArg) :
    ((addRun reg args).2 = true ↔ AddArg.other ∈ args) ∧
    (addRun reg args).1 =
      (args.takeWhile (fun a => !a.isOther)).foldl addStep reg := by
  induction args generalizing reg with
  | nil => simp [addRun]
  | cons a rest ih =>
    cases a with
    | fd f => simpa [addRun, addStep, AddArg.isOther] using ih (add_feature reg f)
    | mfd fs => simpa [addRun, addStep, AddArg.isOther] using ih (add_fds reg fs)
    | fc r =>
        simpa [addRun, addStep, AddArg.isOther] using
          ih (add_fds reg ((r.map Prod.snd).flatten))
    | other => simp [addRun, addStep, AddArg.isOther]

/-! Claim C3: resolution of flat task indices. The lemmas below characterise
the combination of inclusive prefix sums, right-biased search, and the
negative Python list index. -/

theorem lengths_cons (kv : CollKey × List FeatureDescriptor) (rest : Registry) :
    lengths (kv :: rest) = kv.2.length :: (lengths rest).map (kv.2.length + ·) := by
  simp [lengths, cumsum]

theorem keys_cons (kv : CollKey × List FeatureDescriptor) (rest : Registry) :
    keys_wins_strides (kv :: rest) = kv.1 :: keys_wins_strides rest := rfl

theorem feat_length_cons (kv : CollKey × List FeatureDescriptor) (rest : Registry) :
    get_stroll_feat_length (kv :: rest) = kv.2.length + get_stroll_feat_length rest := by
  simp [get_stroll_feat_length]

theorem searchsorted_cons_lt (a : ℕ) (l : List ℕ) (v : ℕ) (h : v < a) :
    searchsorted_right (a :: l.map (a + ·)) v = 0 := by
  unfold searchsorted_right
  rw [List.countP_cons, List.countP_map]
  have h1 : (decide (a ≤ v)) = false := by simp; omega
  have h2 : List.countP ((fun x => decide (x ≤ v)) ∘ (a + ·)) l = 0 := by
    rw [List.countP_eq_zero]
    intro x _
    simp only [Function.comp_apply, decide_eq_true_eq]
    omega
  simp [h1, h2]

theorem searchsorted_cons_ge (a : ℕ) (l : List ℕ) (v : ℕ) (h : a ≤ v) :
    searchsorted_right (a :: l.map (a + ·)) v = searchsorted_right l (v - a) + 1 := by
  unfold searchsorted_right
  rw [List.countP_cons, List.countP_map]
  have h1 : (decide (a ≤ v)) = true := by simpa using h
  have h2 : List.countP ((fun x => decide (x ≤ v)) ∘ (a + ·)) l =
      List.countP (fun x => decide (x ≤ v - a)) l := by
    apply List.countP_congr
    intro x _
    simp only [Function.comp_apply, decide_eq_true_eq]
    omega
  rw [h1, h2]
  simp

theorem pyGet_neg {α : Type} (l : List α) (idx len : ℕ) (h1 : idx < len)
    (h2 : l.length = len) :
    pyGet l ((idx : ℤ) - (len : ℤ)) = l.get? idx := by
  have hneg : ¬ (0 ≤ (idx : ℤ) - (len : ℤ)) := by omega
  have htn : (-((idx : ℤ) - (len : ℤ))).toNat = len - idx := by omega
  unfold pyGet
  rw [if_neg hneg, htn, h2, if_pos (by omega)]
  congr 1
  omega

theorem resolve_cons_lt (kv : CollKey × List FeatureDescriptor) (rest : Registry)
    (idx : ℕ) (h : idx < kv.2.length) :
    resolve_task (kv :: rest) idx = (kv.2.get? idx).map (fun d => (kv.1, d)) := by
  have hs : searchsorted_right (kv.2.length :: (lengths rest).map (kv.2.length + ·)) idx = 0 :=
    searchsorted_cons_lt _ _ _ h
  have hget : pyGet kv.2 ((idx : ℤ) - (kv.2.length : ℤ)) = kv.2.get? idx :=
    pyGet_neg kv.2 idx kv.2.length h rfl
  simp [resolve_task, lengths_cons, keys_cons, hs, List.lookup, hget]
  cases kv.2[idx]? <;> rfl

theorem resolve_cons_ge (kv : CollKey × List FeatureDescriptor) (rest : Registry)
    (idx : ℕ) (h : kv.2.length ≤ idx) (hnk : kv.1 ∉ keys_wins_strides rest) :
    resolve_task (kv :: rest) idx = resolve_task rest (idx - kv.2.length) := by
  have hs : searchsorted_right (kv.2.length :: (lengths rest).map (kv.2.length + ·)) idx =
      searchsorted_right (lengths rest) (idx - kv.2.length) + 1 :=
    searchsorted_cons_ge _ _ _ h
  simp only [resolve_task, lengths_cons, keys_cons, hs, List.get?_cons_succ]
  cases hk : (keys_wins_strides rest).get?
      (searchsorted_right (lengths rest) (idx - kv.2.length)) with
  | none => simp [hk]
  | some key =>
    have hkey : key ∈ keys_wins_strides rest := List.get?_mem hk
    have hne2 : kv.1 ≠ key := fun e => hnk (e ▸ hkey)
    have hb : (key == kv.1) = false := beq_eq_false_iff_ne.mpr (Ne.symm hne2)
    have harg : ∀ lki : ℕ, (idx : ℤ) - ((kv.2.length : ℤ) + (lki : ℤ)) =
        ((idx - kv.2.length : ℕ) : ℤ) - (lki : ℤ) := by
      intro lki; omega
    simp [hk, List.lookup, hb, List.get?_map]
    congr 1
    funext descs
    cases hl : (lengths rest)[searchsorted_right (lengths rest) (idx - kv.2.length)]? with
    | none => simp [hl]
    | some lki => simp [hl, harg lki]

theorem group_offset_cons_lt (kv : CollKey × List FeatureDescriptor) (rest : Registry)
    (idx : ℕ) (h : idx < kv.2.length) :
    group_offset (kv :: rest) idx = some (0, idx) := by
  have hs : searchsorted_right (kv.2.length :: (lengths rest).map (kv.2.length + ·)) idx = 0 :=
    searchsorted_cons_lt _ _ _ h
  have h1 : ¬ (0 ≤ (idx : ℤ) - (kv.2.length : ℤ)) := by omega
  have h2 : (-((idx : ℤ) - (kv.2.length : ℤ))).toNat = kv.2.length - idx := by omega
  have h3 : kv.2.length - idx ≤ kv.2.length := by omega
  have h4 : kv.2.length - (kv.2.length - idx) = idx := by omega
  simp [group_offset, lengths_cons, keys_cons, hs, List.lookup, h1, h2, h3, h4]
  omega

theorem group_offset_cons_ge (kv : CollKey × List FeatureDescriptor) (rest : Registry)
    (idx : ℕ) (h : kv.2.length ≤ idx) (hnk : kv.1 ∉ keys_wins_strides rest) :
    group_offset (kv :: rest) idx =
      (group_offset rest (idx - kv.2.length)).map (fun p => (p.1 + 1, p.2)) := by
  have hs : searchsorted_right (kv.2.length :: (lengths rest).map (kv.2.length + ·)) idx =
      searchsorted_right (lengths rest) (idx - kv.2.length) + 1 :=
    searchsorted_cons_ge _ _ _ h
  simp only [group_offset, lengths_cons, keys_cons, hs, List.get?_cons_succ]
  cases hk : (keys_wins_strides rest).get?
      (searchsorted_right (lengths rest) (idx - kv.2.length)) with
  | none => simp [hk]
  | some key =>
    have hkey : key ∈ keys_wins_strides rest := List.get?_mem hk
    have hne2 : kv.1 ≠ key := fun e => hnk (e ▸ hkey)
    have hb : (key == kv.1) = false := beq_eq_false_iff_ne.mpr (Ne.symm hne2)
    have harg : ∀ lki : ℕ, (idx : ℤ) - ((kv.2.length : ℤ) + (lki : ℤ)) =
        ((idx - kv.2.length : ℕ) : ℤ) - (lki : ℤ) := by
      intro lki; omega
    simp [hk, List.lookup, hb, List.get?_map]
    congr 1
    funext descs
    cases hl : (lengths rest)[searchsorted_right (lengths rest) (idx - kv.2.length)]? with
    | none => simp [hl]
    | some lki =>
      simp only [hl, Option.map_some', Option.some_bind]
      split_ifs <;> simp <;> omega

theorem prefix_len_zero (reg : Registry) : prefix_len reg 0 = 0 := by
  simp [prefix_len]

theorem prefix_len_succ (kv : CollKey × List FeatureDescriptor) (rest : Registry) (g : ℕ) :
    prefix_len (kv :: rest) (g + 1) = kv.2.length + prefix_len rest g := by
  simp [prefix_len]

theorem group_offset_at (reg : Registry) (g o : ℕ) (kv : CollKey × List FeatureDescriptor)
    (hnodup : (reg.map Prod.fst).Nodup) (hg : reg.get? g = some kv)
    (ho : o < kv.2.length) :
    group_offset reg (prefix_len reg g + o) = some (g, o) := by
  induction reg generalizing g with
  | nil => simp at hg
  | cons kv0 rest ih =>
    have hnk : kv0.1 ∉ keys_wins_strides rest := (List.nodup_cons.mp hnodup).1
    cases g with
    | zero =>
      have : kv0 = kv := by simpa using hg
      subst this
      rw [prefix_len_zero, Nat.zero_add]
      exact group_offset_cons_lt _ _ _ ho
    | succ g2 =>
      rw [prefix_len_succ, Nat.add_assoc,
        group_offset_cons_ge _ _ _ (Nat.le_add_right _ _) hnk,
        Nat.add_sub_cancel_left,
        ih g2 (List.nodup_cons.mp hnodup).2 (by simpa using hg)]
      rfl

theorem group_offset_total (reg : Registry) (hnodup : (reg.map Prod.fst).Nodup)
    (idx : ℕ) (h : idx < get_stroll_feat_length reg) :
    ∃ g o kv, reg.get? g = some kv ∧ o < kv.2.length ∧ prefix_len reg g + o = idx ∧
      group_offset reg idx = some (g, o) := by
  induction reg generalizing idx with
  | nil => simp [get_stroll_feat_length] at h
  | cons kv0 rest ih =>
    have hnk : kv0.1 ∉ keys_wins_strides rest := (List.nodup_cons.mp hnodup).1
    by_cases hlt : idx < kv0.2.length
    · exact ⟨0, idx, kv0, rfl, hlt, by rw [prefix_len_zero, Nat.zero_add],
        group_offset_cons_lt _ _ _ hlt⟩
    · push_neg at hlt
      have hidx2 : idx - kv0.2.length < get_stroll_feat_length rest := by
        rw [feat_length_cons] at h; omega
      obtain ⟨g, o, kv, h1, h2, h3, h4⟩ :=
        ih (List.nodup_cons.mp hnodup).2 (idx - kv0.2.length) hidx2
      refine ⟨g + 1, o, kv, by simpa using h1, h2, ?_, ?_⟩
      · rw [prefix_len_succ]; omega
      · rw [group_offset_cons_ge _ _ _ hlt hnk, h4]; rfl

theorem prefix_len_lt_total (reg : Registry) (g o : ℕ)
    (kv : CollKey × List FeatureDescriptor) (hg : reg.get? g = some kv)
    (ho : o < kv.2.length) :
    prefix_len reg g + o < get_stroll_feat_length reg := by
  induction reg generalizing g with
  | nil => simp at hg
  | cons kv0 rest ih =>
    cases g with
    | zero =>
      have : kv0 = kv := by simpa using hg
      subst this
      rw [prefix_len_zero, feat_length_cons]
      omega
    | succ g2 =>
      have := ih g2 (by simpa using hg)
      rw [prefix_len_succ, feat_length_cons]
      omega

theorem flat_cons (kv : CollKey × List FeatureDescriptor) (rest : Registry) :
    flat_tasks (kv :: rest) = kv.2.map (fun d => (kv.1, d)) ++ flat_tasks rest := by
  simp [flat_tasks]

theorem flat_tasks_length (reg : Registry) :
    (flat_tasks reg).length = get_stroll_feat_length reg := by
  induction reg with
  | nil => rfl
  | cons kv rest ih => rw [flat_cons, feat_length_cons]; simp [ih]

theorem resolve_eq_flat (reg : Registry) (hnodup : (reg.map Prod.fst).Nodup) (idx : ℕ) :
    resolve_task reg idx = (flat_tasks reg).get? idx := by
  induction reg generalizing idx with
  | nil =>
    simp [resolve_task, flat_tasks, lengths, cumsum, searchsorted_right, keys_wins_strides]
  | cons kv rest ih =>
    have hnk : kv.1 ∉ keys_wins_strides rest := (List.nodup_cons.mp hnodup).1
    by_cases hlt : idx < kv.2.length
    · rw [resolve_cons_lt _ _ _ hlt, flat_cons,
        List.get?_append (by simpa using hlt)]
      simp [List.get?_map]
    · push_neg at hlt
      rw [resolve_cons_ge _ _ _ hlt hnk, flat_cons,
        List.get?_append_right (by simpa using hlt),
        ih (List.nodup_cons.mp hnodup).2]
      congr 1
      simp

/-- C3: with unique collection keys (a dict invariant), resolving a flat task
index through the inclusive prefix sums and the right-biased search yields
exactly the pair at that position of the concatenation, in key iteration
order, of the per-key descriptor lists; moreover the map from flat indices to
(group, offset) pairs is injective on the flat range and reaches every valid
(group, offset) pair, hence it is a bijection. -/
theorem c3_flat_index_resolution (reg : Registry)
    (hnodup : (reg.map Prod.fst).Nodup) :
    (∀ idx, idx < get_stroll_feat_length reg →
      resolve_task reg idx = (flat_tasks reg).get? idx) ∧
    (∀ i j, i < get_stroll_feat_length reg → j < get_stroll_feat_length reg →
      group_offset reg i = group_offset reg j → i = j) ∧
    (∀ g o kv, reg.get? g = some kv → o < kv.2.length →
      ∃ i, i < get_stroll_feat_length reg ∧ group_offset reg i = some (g, o)) := by
  refine ⟨fun idx _ => resolve_eq_flat reg hnodup idx, ?_, ?_⟩
  · intro i j hi hj hgo
    obtain ⟨g1, o1, kv1, _, _, h3, h4⟩ := group_offset_total reg hnodup i hi
    obtain ⟨g2, o2, kv2, hg2, _, h3b, h4b⟩ := group_offset_total reg hnodup j hj
    rw [h4, h4b] at hgo
    have h5 := Option.some.inj hgo
    have hgeq : g1 = g2 := congrArg Prod.fst h5
    have hoeq : o1 = o2 := congrArg Prod.snd h5
    subst h3; subst h3b
    rw [hgeq, hoeq]
  · intro g o kv hg ho
    exact ⟨prefix_len reg g + o, prefix_len_lt_total reg g o kv hg ho,
      group_offset_at reg g o kv hnodup hg ho⟩

/-- C3 witness: the bijection theorem applied to a concrete two-key registry
at flat index 1. -/
theorem c3_witness :
    resolve_task regEx 1 = (flat_tasks regEx).get? 1 ∧
    resolve_task regEx 1 = some ((["EDA"], 5, 2), dEx1) :=
  ⟨(c3_flat_index_resolution regEx (by decide)).1 1 (by decide), by decide⟩

/-! Claims C1 and C2: dispatch order and Segmenter construction. -/

theorem except_mapM_cons_ok {ε α β : Type} (f : α → Except ε β) (a : α) (l : List α)
    (rs : List β) (h : (a :: l).mapM f = Except.ok rs) :
    ∃ b t, f a = Except.ok b ∧ l.mapM f = Except.ok t ∧ rs = b :: t := by
  rw [List.mapM_cons] at h
  cases hfa : f a with
  | error e => rw [hfa] at h; exact Except.noConfusion h
  | ok b =>
    rw [hfa] at h
    cases hml : l.mapM f with
    | error e => rw [hml] at h; exact Except.noConfusion h
    | ok t =>
      rw [hml] at h
      refine ⟨b, t, rfl, rfl, ?_⟩
      have : (Except.ok (b :: t) : Except ε (List β)) = Except.ok rs := h
      simpa using this.symm

theorem except_mapM_cons_mk {ε α β : Type} (f : α → Except ε β) (a : α) (l : List α)
    (b : β) (t : List β) (hfa : f a = Except.ok b) (hml : l.mapM f = Except.ok t) :
    (a :: l).mapM f = Except.ok (b :: t) := by
  rw [List.mapM_cons, hfa, hml]
  rfl

theorem mapM_perm {ε α β : Type} (f : α → Except ε β) {l1 l2 : List α}
    (hperm : l1.Perm l2) :
    ∀ {rs : List β}, l2.mapM f = Except.ok rs →
      ∃ rs2, l1.mapM f = Except.ok rs2 ∧ rs2.Perm rs := by
  induction hperm with
  | nil => exact fun h => ⟨_, h, List.Perm.refl _⟩
  | cons x p ih =>
    intro rs h
    obtain ⟨b, t, hfa, hml, hrs⟩ := except_mapM_cons_ok f x _ rs h
    obtain ⟨t2, hml2, hp2⟩ := ih hml
    exact ⟨b :: t2, except_mapM_cons_mk f x _ b t2 hfa hml2, hrs ▸ hp2.cons b⟩
  | swap x y l =>
    intro rs h
    obtain ⟨bx, t1, hfx, hml1, hrs1⟩ := except_mapM_cons_ok f x _ rs h
    obtain ⟨by2, t2, hfy, hml2, hrs2⟩ := except_mapM_cons_ok f y _ t1 hml1
    refine ⟨by2 :: bx :: t2,
      except_mapM_cons_mk f y _ by2 (bx :: t2) hfy
        (except_mapM_cons_mk f x _ bx t2 hfx hml2), ?_⟩
    rw [hrs1, hrs2]
    exact List.Perm.swap bx by2 t2
  | trans p1 p2 ih1 ih2 =>
    intro rs h
    obtain ⟨rsm, hm, hpm⟩ := ih2 h
    obtain ⟨rs2, h2, hp2⟩ := ih1 hm
    exact ⟨rs2, h2, hp2.trans hpm⟩

/-- C1 counterexample: on a three-task collection, a parallel run whose
workers complete in the order 1, 0, 2 returns a result list different from
the sequential run, because `pool.uimap` yields results in completion order
and the code never restores flat index order. -/
theorem c1_counterexample :
    [1, 0, 2].Perm (List.range (get_stroll_feat_length regEx)) ∧
    calculate_par regEx [sEDA, sTMP] "end" false [1, 0, 2] ≠
      calculate_seq regEx [sEDA, sTMP] "end" false := by
  decide

/-- C1 (amended): when no task raises, a parallel run returns the same
multiset of per-task tables as the sequential run — the result list is a
permutation of the sequential one, determined by worker completion order, and
coincides with it exactly when tasks happen to complete in flat index order;
flat index order itself is not restored by the code. -/
theorem c1_parallel_permutation (reg : Registry) (data : List Series) (wi : String)
    (aps : Bool) (completion : List ℕ) (rs : List TaskResult)
    (hperm : completion.Perm (List.range (get_stroll_feat_length reg)))
    (hok : calculate_seq reg data wi aps = Except.ok rs) :
    (∃ rs2, calculate_par reg data wi aps completion = Except.ok rs2 ∧ rs2.Perm rs) ∧
    calculate_par reg data wi aps (List.range (get_stroll_feat_length reg)) =
      Except.ok rs := by
  unfold calculate_seq at hok
  cases hsd : build_series_dict (get_required_series reg) [] data with
  | error e => rw [hsd] at hok; exact Except.noConfusion hok
  | ok sd =>
    rw [hsd] at hok
    replace hok : (List.range (get_stroll_feat_length reg)).mapM
        (executor reg sd wi aps) = Except.ok rs := hok
    constructor
    · obtain ⟨rs2, h1, h2⟩ := mapM_perm _ hperm hok
      refine ⟨rs2, ?_, h2⟩
      unfold calculate_par
      rw [hsd]
      exact h1
    · unfold calculate_par
      rw [hsd]
      exact hok

/-- C1 witness: a concrete parallel run with completion order 2, 0, 1 yields a
permutation of the concrete sequential result list. -/
theorem c1_witness :
    ∃ rs2, calculate_par regEx [sEDA, sTMP] "end" false [2, 0, 1] = Except.ok rs2 ∧
      rs2.Perm [⟨⟨[sEDA], 5, 2, "end", false⟩, 0⟩, ⟨⟨[sEDA], 5, 2, "end", false⟩, 1⟩,
        ⟨⟨[sTMP], 3, 1, "end", false⟩, 2⟩] :=
  (c1_parallel_permutation regEx [sEDA, sTMP] "end" false [2, 0, 1] _
    (by decide) (by decide)).1

theorem resolve_task_inv (reg : Registry) (idx : ℕ) (key : CollKey)
    (feature : FeatureDescriptor) (h : resolve_task reg idx = some (key, feature)) :
    (keys_wins_strides reg).get? (searchsorted_right (lengths reg) idx) = some key ∧
    ∃ descs lki, List.lookup key reg = some descs ∧
      (lengths reg).get? (searchsorted_right (lengths reg) idx) = some lki ∧
      pyGet descs ((idx : ℤ) - (lki : ℤ)) = some feature := by
  simp only [resolve_task, Option.bind_eq_bind, Option.bind_eq_some, Option.pure_def,
    Option.some.injEq, Prod.mk.injEq] at h
  obtain ⟨k2, hk2, descs, hd, lki, hl, f2, hp, hkk, hff⟩ := h
  subst hkk
  subst hff
  exact ⟨hk2, descs, lki, hd, hl, hp⟩

theorem get_stroll_function_of_resolve (reg : Registry) (sd : List (String × Series))
    (wi : String) (aps : Bool) (idx : ℕ) (key : CollKey) (feature : FeatureDescriptor)
    (hres : resolve_task reg idx = some (key, feature)) :
    get_stroll_function reg sd wi aps idx =
      (lookup_series sd key.1).map (fun data =>
        ({ data := data, window := key.2.1, stride := key.2.2,
           window_idx := wi, approve_sparsity := aps }, feature.funcId)) := by
  obtain ⟨hk, descs, lki, hd, hl, hp⟩ := resolve_task_inv reg idx key feature hres
  simp only [get_stroll_function, hk, hd, hl, hp]
  cases lookup_series sd key.1 <;> rfl

theorem resolve_task_total (reg : Registry) (hnodup : (reg.map Prod.fst).Nodup)
    (idx : ℕ) (h : idx < get_stroll_feat_length reg) :
    ∃ key feature, resolve_task reg idx = some (key, feature) := by
  rw [resolve_eq_flat reg hnodup idx]
  have hlen : idx < (flat_tasks reg).length := by rw [flat_tasks_length]; exact h
  exact ⟨((flat_tasks reg).get ⟨idx, hlen⟩).1, ((flat_tasks reg).get ⟨idx, hlen⟩).2,
    by rw [List.get?_eq_get hlen]⟩

/-- C2 counterexample: a calculate over a single-key collection holding two
descriptors performs two Segmenter constructions — the construction trace has
one entry per descriptor, both built from the same arguments — while the
collection has one distinct key, so the Segmenter is not constructed exactly
once per key. -/
theorem c2_counterexample :
    (stroll_construction_trace regOneKey [("EDA", sEDA)] "end" false).length = 2 ∧
    (regOneKey.map Prod.fst).dedup.length = 1 ∧
    stroll_construction_trace regOneKey [("EDA", sEDA)] "end" false =
      [Except.ok ⟨[sEDA], 5, 2, "end", false⟩, Except.ok ⟨[sEDA], 5, 2, "end", false⟩] := by
  decide

/-- C2 (amended): one Segmenter is constructed per task — the construction
trace of a sequential calculate has exactly one entry per flat task index,
one per descriptor — and the constructions of two tasks resolving to the same
collection key are performed with identical arguments and yield equal
Segmenter values; what is shared across tasks is the lookup table and the
constructor arguments, not a single Segmenter instance per key. -/
theorem c2_stroll_per_task (reg : Registry) (sd : List (String × Series)) (wi : String)
    (aps : Bool) (hnodup : (reg.map Prod.fst).Nodup) :
    (stroll_construction_trace reg sd wi aps).length = get_stroll_feat_length reg ∧
    (∀ i j, i < get_stroll_feat_length reg → j < get_stroll_feat_length reg →
      searchsorted_right (lengths reg) i = searchsorted_right (lengths reg) j →
      build_stroll reg sd wi aps i = build_stroll reg sd wi aps j) := by
  constructor
  · simp [stroll_construction_trace]
  · intro i j hi hj hss
    obtain ⟨keyi, fi, hri⟩ := resolve_task_total reg hnodup i hi
    obtain ⟨keyj, fj, hrj⟩ := resolve_task_total reg hnodup j hj
    have hki := (resolve_task_inv reg i keyi fi hri).1
    have hkj := (resolve_task_inv reg j keyj fj hrj).1
    rw [hss] at hki
    have hkeys : keyi = keyj := by
      rw [hki] at hkj
      exact Option.some.inj hkj
    unfold build_stroll
    rw [get_stroll_function_of_resolve reg sd wi aps i keyi fi hri,
      get_stroll_function_of_resolve reg sd wi aps j keyj fj hrj, hkeys]
    cases lookup_series sd keyj.1 <;> rfl

/-- C2 witness: the per-task construction theorem applied to the single-key
two-descriptor collection: the trace length equals the descriptor count and
the two constructions for the shared key coincide. -/
theorem c2_witness :
    (stroll_construction_trace regOneKey [("EDA", sEDA)] "end" false).length =
      get_stroll_feat_length regOneKey ∧
    build_stroll regOneKey [("EDA", sEDA)] "end" false 0 =
      build_stroll regOneKey [("EDA", sEDA)] "end" false 1 :=
  ⟨(c2_stroll_per_task regOneKey [("EDA", sEDA)] "end" false (by decide)).1,
    (c2_stroll_per_task regOneKey [("EDA", sEDA)] "end" false (by decide)).2
      0 1 (by decide) (by decide) (by decide)⟩

/-! Claims C9 and C10: series validation and the lazy KeyError. -/

theorem build_error_of_bad (req : List String) (acc : List (String × Series))
    (data : List Series) (hbad : ∃ s ∈ data, series_valid s = false) :
    build_series_dict req acc data = Except.error CalcError.assertionError := by
  induction data generalizing acc with
  | nil => simp at hbad
  | cons s rest ih =>
    obtain ⟨s2, hmem, hval⟩ := hbad
    by_cases hv : series_valid s = true
    · have hrest : ∃ x ∈ rest, series_valid x = false := by
        rcases List.mem_cons.mp hmem with h | h
        · subst h; rw [hv] at hval; cases hval
        · exact ⟨s2, h, hval⟩
      by_cases hr : (req.contains s.name) = true
      · simp only [build_series_dict, hv, if_true, hr]
        exact ih _ hrest
      · simp only [build_series_dict, hv, if_true, hr, if_false]
        exact ih _ hrest
    · simp [build_series_dict, hv]

theorem build_ok_of_valid (req : List String) (acc : List (String × Series))
    (data : List Series) (hval : ∀ s ∈ data, series_valid s = true) :
    build_series_dict req acc data =
      Except.ok (acc ++ (data.filter (fun s => req.contains s.name)).map
        (fun s => (s.name, s))) := by
  induction data generalizing acc with
  | nil => simp [build_series_dict]
  | cons s rest ih =>
    have hv : series_valid s = true := hval s (by simp)
    have hrest : ∀ x ∈ rest, series_valid x = true := fun x h => hval x (by simp [h])
    by_cases hr : (req.contains s.name) = true
    · simp only [build_series_dict, hv, if_true, hr, ih _ hrest, List.filter_cons,
        List.map_cons]
      simp
    · simp only [build_series_dict, hv, if_true, hr, if_false, ih _ hrest,
        List.filter_cons]
      simp [hr]

/-- C9: the embedded `calculate` asserts the datetime-index and monotone-index
preconditions on every supplied series — including series whose name is not
required by the collection — and only afterwards filters to the required
names; a single violating series, required or not, aborts the call with the
assertion error before any task output is produced, and when every series is
valid the built series dict is exactly the required-name filter of the data. -/
theorem c9_validates_all_series (reg : Registry) (data : List Series) (wi : String)
    (aps : Bool) :
    ((∃ s ∈ data, series_valid s = false) →
      calculate_seq reg data wi aps = Except.error CalcError.assertionError) ∧
    ((∀ s ∈ data, series_valid s = true) →
      build_series_dict (get_required_series reg) [] data =
        Except.ok ((data.filter
          (fun s => (get_required_series reg).contains s.name)).map
          (fun s => (s.name, s)))) := by
  constructor
  · intro hbad
    unfold calculate_seq
    rw [build_error_of_bad _ _ _ hbad]
    rfl
  · intro hval
    simpa using build_ok_of_valid (get_required_series reg) [] data hval

/-- C9 witness: a non-required series with a non-monotone index aborts a
concrete `calculate` with the assertion error, even though its values would
never be used. -/
theorem c9_witness :
    calculate_seq regEx [sEDA, sTMP, sBadZ] "end" false =
      Except.error CalcError.assertionError ∧
    sBadZ.name ∉ get_required_series regEx :=
  ⟨(c9_validates_all_series regEx [sEDA, sTMP, sBadZ] "end" false).1
    ⟨sBadZ, by decide, by decide⟩, by decide⟩

theorem lookup_series_error (sd : List (String × Series)) (names : List String)
    (hmiss : ∃ n ∈ names, List.lookup n sd = none) :
    lookup_series sd names = Except.error CalcError.keyError := by
  induction names with
  | nil => simp at hmiss
  | cons n rest ih =>
    obtain ⟨n2, hmem, hnone⟩ := hmiss
    rcases List.mem_cons.mp hmem with h | h
    · subst h
      simp [lookup_series, hnone]
    · cases hl : List.lookup n sd with
      | none => simp [lookup_series, hl]
      | some s => simp [lookup_series, hl, ih ⟨n2, h, hnone⟩, Except.map]

theorem lookup_series_ok (sd : List (String × Series)) (names : List String)
    (hall : ∀ n ∈ names, (List.lookup n sd).isSome = true) :
    ∃ l, lookup_series sd names = Except.ok l := by
  induction names with
  | nil => exact ⟨[], rfl⟩
  | cons n rest ih =>
    obtain ⟨l, hl⟩ := ih (fun n2 h => hall n2 (by simp [h]))
    cases hn : List.lookup n sd with
    | none =>
      have := hall n (by simp)
      rw [hn] at this
      cases this
    | some s => exact ⟨s :: l, by simp [lookup_series, hn, hl, Except.map]⟩

/-- C10: when every supplied series passes validation, `calculate` performs no
upfront completeness check of the required series — the series dict is built
successfully even when a required name is absent from the data — and the
KeyError surfaces only inside a task, at the moment its Segmenter fetches its
series: a task whose key contains an absent name fails with the KeyError,
while a task whose names are all present executes normally. -/
theorem c10_missing_series_lazy (reg : Registry) (data : List Series) (wi : String)
    (aps : Bool) (hval : ∀ s ∈ data, series_valid s = true) :
    (∃ sd, build_series_dict (get_required_series reg) [] data = Except.ok sd) ∧
    (∀ sd idx key feature, resolve_task reg idx = some (key, feature) →
      ((∃ n ∈ key.1, List.lookup n sd = none) →
        executor reg sd wi aps idx = Except.error CalcError.keyError) ∧
      ((∀ n ∈ key.1, (List.lookup n sd).isSome = true) →
        ∃ r, executor reg sd wi aps idx = Except.ok r)) := by
  constructor
  · exact ⟨_, build_ok_of_valid (get_required_series reg) [] data hval⟩
  · intro sd idx key feature hres
    constructor
    · intro hmiss
      unfold executor
      rw [get_stroll_function_of_resolve reg sd wi aps idx key feature hres,
        lookup_series_error sd key.1 hmiss]
      rfl
    · intro hall
      obtain ⟨l, hl⟩ := lookup_series_ok sd key.1 hall
      unfold executor
      rw [get_stroll_function_of_resolve reg sd wi aps idx key feature hres, hl]
      exact ⟨_, rfl⟩

/-- C10 witness: with only the EDA series supplied, validation succeeds, the
TMP task fails with the KeyError at execution time, and the EDA tasks run. -/
theorem c10_witness :
    (∃ sd, build_series_dict (get_required_series regEx) [] [sEDA] = Except.ok sd) ∧
    executor regEx [("EDA", sEDA)] "end" false 2 = Except.error CalcError.keyError ∧
    (∃ r, executor regEx [("EDA", sEDA)] "end" false 0 = Except.ok r) :=
  ⟨(c10_missing_series_lazy regEx [sEDA] "end" false (by decide)).1,
    ((c10_missing_series_lazy regEx [sEDA] "end" false (by decide)).2
      [("EDA", sEDA)] 2 (["TMP"], 3, 1) dTmp (by decide)).1
      ⟨"TMP", by decide, by decide⟩,
    ((c10_missing_series_lazy regEx [sEDA] "end" false (by decide)).2
      [("EDA", sEDA)] 0 (["EDA"], 5, 2) dEx0 (by decide)).2
      (fun n hn => by
        have : n = "EDA" := by simpa using hn
        subst this
        decide)⟩

/-! Claim C4: the window-count formula. The repository does not ship the
Segmenter implementation under src; the deciding artifact is the row-count
assertion of the tests, which fixes one window fewer than the claim. -/

/-- C4 counterexample: at 40 samples of period one quarter second (10 seconds
of data), window 5 s and stride 2.5 s, the row count asserted by the tests is
2 while the claim formula yields 3, so the claimed count does not match the
count the repository pins down. -/
theorem c4_counterexample :
    test_expected_len 40 (1/4) 5 (5/2) = 2 ∧
    spec_window_count 40 (1/4) 5 (5/2) = 3 := by
  constructor <;> norm_num [test_expected_len, spec_window_count]

/-- C4 (amended): the number of result rows is the test-asserted
`floor((floor(N*P) - W)/S)`, which is exactly one less than the claimed
`floor((N*P - W)/S) + 1` whenever the data span `N*P` is a whole number of
seconds and at least `W`; no partial trailing window is emitted. -/
theorem c4_amended_count (N : ℕ) (P W S : ℚ)
    (hW : W ≤ (N : ℚ) * P) (hint : ((⌊(N : ℚ) * P⌋ : ℚ) = (N : ℚ) * P)) :
    test_expected_len N P W S = spec_window_count N P W S - 1 := by
  unfold test_expected_len spec_window_count
  rw [if_pos hW]
  have h1 : (N : ℚ) / (1 / P) = (N : ℚ) * P := by
    rw [div_div_eq_mul_div, div_one]
  rw [h1, hint]
  ring

/-- C4 witness: the amended count relation evaluated at the concrete
counterexample input. -/
theorem c4_witness :
    test_expected_len 40 (1/4) 5 (5/2) = spec_window_count 40 (1/4) 5 (5/2) - 1 :=
  c4_amended_count 40 (1/4) 5 (5/2) (by norm_num) (by norm_num)

/-! Claim C6: the missing-value pattern of the outer merge. -/

theorem window_end_index_mem (t0 W S : ℚ) (n : ℕ) (t : ℚ) :
    t ∈ window_end_index t0 W S n ↔ ∃ i : ℕ, i < n ∧ t0 + W + (i : ℚ) * S = t := by
  unfold window_end_index
  rw [List.mem_map]
  constructor
  · rintro ⟨i, hi, h⟩
    exact ⟨i, List.mem_range.mp hi, h⟩
  · rintro ⟨i, hi, h⟩
    exact ⟨i, List.mem_range.mpr hi, h⟩

theorem task_table_keys (t0 W S : ℚ) (n : ℕ) (f : ℚ → ℚ) :
    (task_table t0 W S n f).map Prod.fst = window_end_index t0 W S n := by
  unfold task_table
  rw [List.map_map]
  have hcomp : (Prod.fst ∘ fun t => (t, f t)) = (id : ℚ → ℚ) := rfl
  rw [hcomp, List.map_id]

theorem lookup_pairs_isSome {β : Type} (f : ℚ → β) (l : List ℚ) (t : ℚ) :
    (List.lookup t (l.map (fun x => (x, f x)))).isSome = true ↔ t ∈ l := by
  induction l with
  | nil => simp [List.lookup]
  | cons x rest ih =>
    by_cases hx : t = x
    · subst hx
      simp [List.lookup]
    · have hb : (t == x) = false := beq_eq_false_iff_ne.mpr hx
      simp [List.lookup, hb, ih, hx]

theorem merged_cell_isSome (t0 W S : ℚ) (n : ℕ) (f : ℚ → ℚ) (t : ℚ) :
    (merged_cell (task_table t0 W S n f) t).isSome = true ↔
      t ∈ window_end_index t0 W S n := by
  unfold merged_cell task_table
  exact lookup_pairs_isSome f (window_end_index t0 W S n) t

theorem longer_index_subset (t0 W S : ℚ) (k n2 : ℕ) (t : ℚ)
    (ht : t ∈ window_end_index t0 (W + (k : ℚ) * S) S n2) :
    t ∈ window_end_index t0 W S (n2 + k) := by
  rw [window_end_index_mem] at ht ⊢
  obtain ⟨i, hi, heq⟩ := ht
  refine ⟨i + k, by omega, ?_⟩
  rw [← heq]
  push_cast
  ring

theorem union_index_mem (t1 t2 : List (ℚ × ℚ)) (t : ℚ) :
    t ∈ union_index t1 t2 ↔ t ∈ t1.map Prod.fst ∨ t ∈ t2.map Prod.fst := by
  simp [union_index]

/-- C6: for two tasks over the same series with the same stride, the longer
window exceeding the shorter by k strides and producing k fewer rows, the
outer merge on the union of the two timestamp indexes leaves the
shorter-window column with a value in every merged row, leaves the
longer-window column missing exactly in the union rows where the longer
window has no result — the first merged timestamp being such a row — and in
list form every per-task table carries a value at each of its own rows, so no
missing values arise without the merge. -/
theorem c6_merge_nan_pattern (t0 W S : ℚ) (k n2 : ℕ) (f g : ℚ → ℚ)
    (hS : 0 < S) (hk : 0 < k) :
    (∀ t ∈ union_index (task_table t0 W S (n2 + k) f)
        (task_table t0 (W + (k : ℚ) * S) S n2 g),
      (merged_cell (task_table t0 W S (n2 + k) f) t).isSome = true) ∧
    (∀ t ∈ union_index (task_table t0 W S (n2 + k) f)
        (task_table t0 (W + (k : ℚ) * S) S n2 g),
      ((merged_cell (task_table t0 (W + (k : ℚ) * S) S n2 g) t).isSome = true ↔
        t ∈ window_end_index t0 (W + (k : ℚ) * S) S n2)) ∧
    (merged_cell (task_table t0 (W + (k : ℚ) * S) S n2 g) (t0 + W) = none ∧
      (t0 + W) ∈ union_index (task_table t0 W S (n2 + k) f)
        (task_table t0 (W + (k : ℚ) * S) S n2 g)) ∧
    (∀ t ∈ (task_table t0 W S (n2 + k) f).map Prod.fst,
      (merged_cell (task_table t0 W S (n2 + k) f) t).isSome = true) ∧
    (∀ t ∈ (task_table t0 (W + (k : ℚ) * S) S n2 g).map Prod.fst,
      (merged_cell (task_table t0 (W + (k : ℚ) * S) S n2 g) t).isSome = true) := by
  have hmemu : ∀ t, t ∈ union_index (task_table t0 W S (n2 + k) f)
      (task_table t0 (W + (k : ℚ) * S) S n2 g) ↔
      t ∈ window_end_index t0 W S (n2 + k) := by
    intro t
    rw [union_index_mem, task_table_keys, task_table_keys]
    constructor
    · rintro (h | h)
      · exact h
      · exact longer_index_subset t0 W S k n2 t h
    · exact fun h => Or.inl h
  refine ⟨?_, ?_, ⟨?_, ?_⟩, ?_, ?_⟩
  · intro t ht
    rw [merged_cell_isSome]
    exact (hmemu t).mp ht
  · intro t _
    rw [merged_cell_isSome]
  · rw [← Option.not_isSome_iff_eq_none, merged_cell_isSome, window_end_index_mem]
    rintro ⟨i, _, heq⟩
    have hpos : (0 : ℚ) < ((k : ℚ) + (i : ℚ)) * S := by
      have hk2 : (0 : ℚ) < (k : ℚ) := by exact_mod_cast hk
      have hi2 : (0 : ℚ) ≤ (i : ℚ) := by positivity
      nlinarith
    nlinarith [heq]
  · rw [hmemu, window_end_index_mem]
    exact ⟨0, by omega, by push_cast; ring⟩
  · intro t ht
    rw [task_table_keys] at ht
    rw [merged_cell_isSome]
    exact ht
  · intro t ht
    rw [task_table_keys] at ht
    rw [merged_cell_isSome]
    exact ht

/-- C6 witness: the merge pattern theorem at window 5, stride 2.5, longer
window 7.5, with two rows against one: the longer column is missing exactly
at the first merged timestamp. -/
theorem c6_witness :
    merged_cell (task_table 0 (5 + ((1 : ℕ) : ℚ) * (5/2)) (5/2) 1 (fun _ => 0))
      ((0 : ℚ) + 5) = none ∧
    ((0 : ℚ) + 5) ∈ union_index (task_table 0 5 (5/2) (1 + 1) (fun _ => 0))
      (task_table 0 (5 + ((1 : ℕ) : ℚ) * (5/2)) (5/2) 1 (fun _ => 0)) :=
  (c6_merge_nan_pattern 0 5 (5/2) 1 1 (fun _ => 0) (fun _ => 0)
    (by norm_num) (by norm_num)).2.2.1

/-! Claim C7: the execution-log line structure and the log parser. -/

theorem bgOut_cons_bracket (l : List Char) : bgOut ('[' :: l) = bgIn l [] := by
  simp [bgOut]

theorem bgIn_append (content rest acc : List Char) (h : ']' ∉ content) :
    bgIn (content ++ ']' :: rest) acc = (acc ++ content) :: bgOut rest := by
  induction content generalizing acc with
  | nil => simp [bgIn]
  | cons c cs ih =>
    have hc : ¬ (c = ']') := fun e => h (e ▸ List.mem_cons_self c cs)
    have h2 : ']' ∉ cs := fun hm => h (List.mem_cons_of_mem c hm)
    simp [bgIn, hc, ih _ h2]

theorem bgOut_mk_log_message (func key wstr sstr dur : List Char)
    (hf : ']' ∉ func) (hk : ']' ∉ key) (hw1 : ']' ∉ wstr) (hs1 : ']' ∉ sstr)
    (hd1 : ']' ∉ dur) :
    bgOut (mk_log_message func key wstr sstr dur) =
      [func, key, wstr ++ ',' :: sstr, dur ++ " seconds".toList] := by
  have hws : ']' ∉ wstr ++ ',' :: sstr := by
    intro hmem
    rcases List.mem_append.mp hmem with h | h
    · exact hw1 h
    · rcases List.mem_cons.mp h with h | h
      · exact absurd h (by decide)
      · exact hs1 h
  have hd2 : ']' ∉ dur ++ " seconds".toList := by
    intro hmem
    rcases List.mem_append.mp hmem with h | h
    · exact hd1 h
    · revert h
      decide
  have h1 : mk_log_message func key wstr sstr dur =
      '[' :: (func ++ ']' :: ('[' :: (key ++ ']' ::
        ('[' :: ((wstr ++ ',' :: sstr) ++ ']' ::
          ('[' :: ((dur ++ " seconds".toList) ++ ']' :: ([] : List Char)))))))) := by
    simp [mk_log_message]
  rw [h1, bgOut_cons_bracket, bgIn_append _ _ _ hf, bgOut_cons_bracket,
    bgIn_append _ _ _ hk, bgOut_cons_bracket, bgIn_append _ _ _ hws,
    bgOut_cons_bracket, bgIn_append _ _ _ hd2]
  simp [bgOut]

theorem dropWhile_eq_self_of_not (p : Char → Bool) (l : List Char)
    (h : ∀ x ∈ l, p x = false) :
    l.dropWhile p = l := by
  cases l with
  | nil => rfl
  | cons a rest => simp [List.dropWhile, h a (by simp)]

theorem dropWhile_append_all (p : Char → Bool) (a b : List Char)
    (h : ∀ x ∈ a, p x = true) :
    (a ++ b).dropWhile p = b.dropWhile p := by
  induction a with
  | nil => rfl
  | cons x rest ih =>
    simp [List.dropWhile, h x (by simp), ih (fun y hy => h y (by simp [hy]))]

theorem stripChar_eq_self (c : Char) (l : List Char) (h : c ∉ l) :
    stripChar c l = l := by
  have hp : ∀ x ∈ l, (decide (x = c)) = false := by
    intro x hx
    simp only [decide_eq_false_iff_not]
    exact fun e => h (e ▸ hx)
  have hp2 : ∀ x ∈ l.reverse, (decide (x = c)) = false := by
    intro x hx
    exact hp x (List.mem_reverse.mp hx)
  unfold stripChar
  rw [dropWhile_eq_self_of_not _ _ hp, dropWhile_eq_self_of_not _ _ hp2,
    List.reverse_reverse]

theorem rstripSet_append (set l suffix : List Char)
    (hsuf : ∀ x ∈ suffix, set.contains x = true)
    (hl : ∀ x ∈ l, set.contains x = false) :
    rstripSet set (l ++ suffix) = l := by
  unfold rstripSet
  rw [List.reverse_append,
    dropWhile_append_all _ _ _ (fun x hx => hsuf x (List.mem_reverse.mp hx)),
    dropWhile_eq_self_of_not _ _ (fun x hx => hl x (List.mem_reverse.mp hx)),
    List.reverse_reverse]

theorem pySplitChar_no (c : Char) (l acc : List Char) (h : c ∉ l) :
    pySplitChar c l acc = [acc ++ l] := by
  induction l generalizing acc with
  | nil => simp [pySplitChar]
  | cons x rest ih =>
    have hx : ¬ (x = c) := fun e => h (e ▸ List.mem_cons_self x rest)
    simp [pySplitChar, hx, ih _ (fun hm => h (List.mem_cons_of_mem x hm))]

theorem pySplitChar_mid (c : Char) (w s acc : List Char) (hw : c ∉ w) :
    pySplitChar c (w ++ c :: s) acc = (acc ++ w) :: pySplitChar c s [] := by
  induction w generalizing acc with
  | nil => simp [pySplitChar]
  | cons x rest ih =>
    have hx : ¬ (x = c) := fun e => hw (e ▸ List.mem_cons_self x rest)
    simp [pySplitChar, hx, ih _ (fun hm => hw (List.mem_cons_of_mem x hm))]

/-- C7 at message level: a message of the emitted structure has exactly 4
bracketed groups and the message parser extracts the function name, the key,
the window and stride integers, and the duration. -/
theorem parse_message_mk (func key wstr sstr dur : List Char) (w s : ℕ) (d : ℚ)
    (hf : ']' ∉ func) (hk : ']' ∉ key) (hkq : Char.ofNat 39 ∉ key)
    (hw1 : ']' ∉ wstr) (hw2 : ',' ∉ wstr) (hs1 : ']' ∉ sstr) (hs3 : ',' ∉ sstr)
    (hd1 : ']' ∉ dur) (hd2 : ∀ ch ∈ dur, (" seconds".toList.contains ch) = false)
    (hwv : pyInt wstr = some w) (hsv : pyInt sstr = some s)
    (hdv : pyFloat dur = some d) :
    (bgOut (mk_log_message func key wstr sstr dur)).length = 4 ∧
    parse_message (String.mk (mk_log_message func key wstr sstr dur)) =
      some (String.mk func, String.mk key, w, s, d) := by
  have hms := bgOut_mk_log_message func key wstr sstr dur hf hk hw1 hs1 hd1
  refine ⟨by rw [hms]; rfl, ?_⟩
  have htl : (String.mk (mk_log_message func key wstr sstr dur)).toList =
      mk_log_message func key wstr sstr dur := rfl
  unfold parse_message
  rw [htl, hms]
  have hsplit : pySplitChar ',' (wstr ++ ',' :: sstr) [] = [wstr, sstr] := by
    rw [pySplitChar_mid ',' wstr sstr [] hw2, pySplitChar_no ',' sstr [] hs3]
    simp
  have hstrip : rstripSet " seconds".toList (dur ++ " seconds".toList) = dur :=
    rstripSet_append _ _ _ (by decide) hd2
  simp [hsplit, hstrip, stripChar_eq_self _ _ hkq, hwv, hsv, hdv]
  have hstrip2 : rstripSet [ ' ', 's', 'e', 'c', 'o', 'n', 'd', 's' ]
      (dur ++ [ ' ', 's', 'e', 'c', 'o', 'n', 'd', 's' ]) = dur := hstrip
  rw [hstrip2, hdv]
  rfl

theorem split_sep_no (a : List Char) (acc : List Char) (h : has_sep a = false) :
    split_sep a acc = [acc ++ a] := by
  induction a generalizing acc with
  | nil => simp [split_sep]
  | cons c rest ih =>
    match rest with
    | [] => simp [split_sep]
    | [c2] => simp [split_sep]
    | c2 :: c3 :: rest3 =>
      have hparts : ¬ (c = ' ' ∧ c2 = '-' ∧ c3 = ' ') ∧
          has_sep (c2 :: c3 :: rest3) = false := by
        unfold has_sep at h
        simpa using h
      rw [split_sep, if_neg hparts.1, ih _ hparts.2]
      simp

theorem split_sep_append (a r : List Char) (acc : List Char)
    (ha : has_sep a = false) (hsuf : ¬ ([ ' ', '-' ] <:+ a)) :
    split_sep (a ++ ' ' :: '-' :: ' ' :: r) acc = (acc ++ a) :: split_sep r [] := by
  induction a generalizing acc with
  | nil => simp [split_sep]
  | cons c rest ih =>
    have hsuf2 : ¬ ([ ' ', '-' ] <:+ rest) :=
      fun hsf => hsuf (hsf.trans (List.suffix_cons c rest))
    rcases rest with _ | ⟨c2, rest2⟩
    · simp [split_sep]
    rcases rest2 with _ | ⟨c3, rest3⟩
    · have hcond : ¬ (c = ' ' ∧ c2 = '-') := by
        rintro ⟨h1, h2⟩
        refine hsuf ?_
        rw [h1, h2]
      simp [split_sep, hcond]
    · have ha2 : has_sep (c2 :: c3 :: rest3) = false := by
        unfold has_sep at ha
        simp at ha
        exact ha.2
      have hcond : ¬ (c = ' ' ∧ c2 = '-' ∧ c3 = ' ') := by
        intro hc
        unfold has_sep at ha
        simp [hc.1, hc.2.1, hc.2.2] at ha
      have hrec := ih (acc ++ [c]) ha2 hsuf2
      simp only [List.cons_append] at hrec ⊢
      rw [split_sep, if_neg hcond, hrec]
      simp

theorem py_strip_eq_self_of (l : List Char)
    (h1 : l.dropWhile Char.isWhitespace = l)
    (h2 : l.reverse.dropWhile Char.isWhitespace = l.reverse) : py_strip l = l := by
  unfold py_strip
  rw [h1, h2, List.reverse_reverse]

theorem py_strip_mk_log_message (func key wstr sstr dur : List Char) :
    py_strip (mk_log_message func key wstr sstr dur) =
      mk_log_message func key wstr sstr dur := by
  have hshape : mk_log_message func key wstr sstr dur =
      '[' :: ((func ++ [ ']', '[' ] ++ key ++ [ ']', '[' ] ++ wstr ++ [ ',' ] ++
        sstr ++ [ ']', '[' ] ++ dur ++ " seconds".toList) ++ [ ']' ]) := by
    simp [mk_log_message]
  apply py_strip_eq_self_of
  · rw [hshape]
    have hws : Char.isWhitespace '[' = false := by decide
    simp [List.dropWhile, hws]
  · rw [hshape]
    have hws : Char.isWhitespace ']' = false := by decide
    simp [List.dropWhile, hws]

/-- C7: a full execution-log line of the spec structure
`<timestamp> - <logger-name> - <level> - [<function>][<key>][<w>,<s>][<dur> seconds]`
carries exactly 4 bracketed groups in its message, and the reporting parser
of logger.py, applied to such a line, splits it on the separator and extracts
the log time, the function name, the series key, the window and stride as
integers, and the duration in seconds. The hypotheses state that the fields
contain none of the delimiters (no closing bracket, no separator occurrence,
no stray comma in the numeric fields, no newline) and that the numeric
fields parse. -/
theorem c7_log_line_roundtrip (ts nm lv func key wstr sstr dur : List Char)
    (w s : ℕ) (d : ℚ)
    (hts1 : has_sep ts = false) (hts2 : ¬ ([ ' ', '-' ] <:+ ts))
    (hts3 : py_strip ts = ts)
    (hnm1 : has_sep nm = false) (hnm2 : ¬ ([ ' ', '-' ] <:+ nm))
    (hlv1 : has_sep lv = false) (hlv2 : ¬ ([ ' ', '-' ] <:+ lv))
    (hmsg : has_sep (mk_log_message func key wstr sstr dur) = false)
    (hnl : Char.ofNat 10 ∉ mk_log_message func key wstr sstr dur)
    (hf : ']' ∉ func) (hk : ']' ∉ key) (hkq : Char.ofNat 39 ∉ key)
    (hw1 : ']' ∉ wstr) (hw2 : ',' ∉ wstr) (hs1 : ']' ∉ sstr) (hs3 : ',' ∉ sstr)
    (hd1 : ']' ∉ dur) (hd2 : ∀ ch ∈ dur, (" seconds".toList.contains ch) = false)
    (hwv : pyInt wstr = some w) (hsv : pyInt sstr = some s)
    (hdv : pyFloat dur = some d) :
    (bgOut (mk_log_message func key wstr sstr dur)).length = 4 ∧
    parse_log_line (String.mk
        (mk_log_line ts nm lv (mk_log_message func key wstr sstr dur))) =
      some (String.mk ts, String.mk func, String.mk key, w, s, d) := by
  obtain ⟨hlen4, hpm⟩ := parse_message_mk func key wstr sstr dur w s d
    hf hk hkq hw1 hw2 hs1 hs3 hd1 hd2 hwv hsv hdv
  refine ⟨hlen4, ?_⟩
  have hsep3 : " - ".toList = ' ' :: '-' :: ' ' :: ([] : List Char) := rfl
  have hline : mk_log_line ts nm lv (mk_log_message func key wstr sstr dur) =
      ts ++ ' ' :: '-' :: ' ' :: (nm ++ ' ' :: '-' :: ' ' ::
        (lv ++ ' ' :: '-' :: ' ' :: mk_log_message func key wstr sstr dur)) := by
    simp [mk_log_line, hsep3]
  have hparts : split_sep
      (mk_log_line ts nm lv (mk_log_message func key wstr sstr dur)) [] =
      [ts, nm, lv, mk_log_message func key wstr sstr dur] := by
    rw [hline, split_sep_append ts _ [] hts1 hts2,
      split_sep_append nm _ [] hnm1 hnm2, split_sep_append lv _ [] hlv1 hlv2,
      split_sep_no _ _ hmsg]
    simp
  have htl : (String.mk
      (mk_log_line ts nm lv (mk_log_message func key wstr sstr dur))).toList =
      mk_log_line ts nm lv (mk_log_message func key wstr sstr dur) := rfl
  unfold parse_log_line
  rw [htl, hparts]
  simp only [List.get?_cons_zero, List.get?_cons_succ, Option.bind_eq_bind,
    Option.some_bind]
  rw [py_strip_mk_log_message, hts3, hpm]
  rfl

/-- C7 witness: the round-trip theorem evaluated on a fully concrete log
line. -/
theorem c7_witness :
    parse_log_line (String.mk (mk_log_line "2021-07-01 10:00:00,123".toList
        "feature_calculation_logger".toList "INFO".toList
        (mk_log_message "amax".toList "EDA".toList "5".toList "2".toList
          "0.5".toList))) =
      some ("2021-07-01 10:00:00,123", "amax", "EDA", 5, 2, (1 : ℚ)/2) :=
  (c7_log_line_roundtrip "2021-07-01 10:00:00,123".toList
    "feature_calculation_logger".toList "INFO".toList "amax".toList "EDA".toList
    "5".toList "2".toList "0.5".toList 5 2 ((1 : ℚ)/2)
    (by decide) (by decide) (by decide) (by decide) (by decide) (by decide)
    (by decide) (by decide) (by decide) (by decide) (by decide) (by decide)
    (by decide) (by decide) (by decide) (by decide) (by decide) (by decide)
    (by decide) (by decide)
    (by simp [pyFloat, pySplitChar, pyIntAux, digitVal, pyInt]; norm_num)).2

end Tsflex
